import Mathlib

/-!
# Verification of `plot_enrolments.py`

A shallow embedding of the enrolment-plotting script.  Instants are modelled
as integers (seconds on a proleptic-Gregorian, fixed-offset timeline): the
script obtains instants from `time.mktime`, whose absolute value it never
uses — only differences of instants matter, and those agree with this model
whenever no timezone transition falls between the two instants.  Python's
`int(x / 86400)` on whole-second floats is modelled by `Int.tdiv _ 86400`
(truncation toward zero), which is exact at these magnitudes.
-/

/-- `SECONDS_PER_DAY = 60 * 60 * 24` from the script. -/
def SECONDS_PER_DAY : Int := 60 * 60 * 24

/-- `LAST_MINUTE_OF_DAY = '23:59'` from the script. -/
def LAST_MINUTE_OF_DAY : String := "23:59"

/-- `NUM_FIELDS = 6` from the script. -/
def NUM_FIELDS : Nat := 6

/-- The `Record` namedtuple: event instant and action label. -/
structure Record where
  time : Int
  action : String
deriving Repr, DecidableEq

/-- Gregorian leap-year rule, used to model `strptime`/`mktime` calendar
arithmetic. -/
def isLeapYear (y : Int) : Bool :=
  y % 4 == 0 && (y % 100 != 0 || y % 400 == 0)

/-- Days before month `m` (1-12) in a non-leap year. -/
def daysBeforeMonth (m : Nat) : Nat :=
  [0, 31, 59, 90, 120, 151, 181, 212, 243, 273, 304, 334].getD (m - 1) 0

/-- Day number of the calendar date `y-m-d` counted from 1-Jan-0001 = 0,
proleptic Gregorian. -/
def daysFromYearOne (y : Int) (m d : Nat) : Int :=
  365 * (y - 1) + Int.fdiv (y - 1) 4 - Int.fdiv (y - 1) 100 + Int.fdiv (y - 1) 400
    + (daysBeforeMonth m : Int) + (if 2 < m ∧ isLeapYear y then 1 else 0)
    + ((d : Int) - 1)

/-- Instant (in seconds) of calendar date `y-mo-d` at time `h:mi`. -/
def dtInstant (y : Int) (mo d h mi : Nat) : Int :=
  SECONDS_PER_DAY * daysFromYearOne y mo d + 3600 * (h : Int) + 60 * (mi : Int)

/-- Split a character list at every occurrence of the separator `c`
(the pieces do not contain `c`). -/
def splitOnCharAux (c : Char) : List Char → List Char → List (List Char)
  | [], acc => [acc.reverse]
  | x :: xs, acc =>
    if x = c then acc.reverse :: splitOnCharAux c xs []
    else splitOnCharAux c xs (x :: acc)

/-- Split a character list on a separator character. -/
def splitOnChar (c : Char) (l : List Char) : List (List Char) :=
  splitOnCharAux c l []

/-- Decimal value of a digit character. -/
def digitVal (c : Char) : Option Nat :=
  if c.isDigit then some (c.toNat - 48) else none

/-- Read a decimal numeral from characters (accumulator form). -/
def charsToNatAux : List Char → Nat → Option Nat
  | [], acc => some acc
  | c :: cs, acc =>
    match digitVal c with
    | some d => charsToNatAux cs (10 * acc + d)
    | none => none

/-- Read a nonempty all-digit character list as a natural number,
modelling `strptime`'s numeric fields. -/
def charsToNat (l : List Char) : Option Nat :=
  match l with
  | [] => none
  | _ :: _ => charsToNatAux l 0

/-- ASCII lower-casing of one character. -/
def lowerChar (c : Char) : Char :=
  if 'A' ≤ c ∧ c ≤ 'Z' then Char.ofNat (c.toNat + 32) else c

/-- `strptime` `%b` month abbreviations (matched case-insensitively, as
`strptime` does). -/
def monthOfAbbrev (l : List Char) : Option Nat :=
  match l.map lowerChar with
  | ['j', 'a', 'n'] => some 1
  | ['f', 'e', 'b'] => some 2
  | ['m', 'a', 'r'] => some 3
  | ['a', 'p', 'r'] => some 4
  | ['m', 'a', 'y'] => some 5
  | ['j', 'u', 'n'] => some 6
  | ['j', 'u', 'l'] => some 7
  | ['a', 'u', 'g'] => some 8
  | ['s', 'e', 'p'] => some 9
  | ['o', 'c', 't'] => some 10
  | ['n', 'o', 'v'] => some 11
  | ['d', 'e', 'c'] => some 12
  | _ => none

/-- `parse_date_time` on the character level: match `'%d-%b-%Y %H:%M'`. -/
def parseDateTimeChars (l : List Char) : Option Int :=
  match splitOnChar ' ' l with
  | [dateCs, timeCs] =>
    match splitOnChar '-' dateCs, splitOnChar ':' timeCs with
    | [ds, ms, ys], [hs, mis] =>
      match charsToNat ds, monthOfAbbrev ms, charsToNat ys, charsToNat hs, charsToNat mis with
      | some d, some mo, some y, some h, some mi =>
        if 1 ≤ d ∧ d ≤ 31 ∧ h ≤ 23 ∧ mi ≤ 59 then
          some (dtInstant (y : Int) mo d h mi)
        else none
      | _, _, _, _, _ => none
    | _, _ => none
  | _ => none

/-- `parse_date_time`: parse a `'%d-%b-%Y %H:%M'` string into an instant,
modelling `time.mktime(time.strptime(s, DATE_FORMAT))`.  Returns `none` where
the script would raise `ValueError` (text not matching the format). -/
def parse_date_time (s : String) : Option Int :=
  parseDateTimeChars s.data

/-- Python's `str.strip()`: drop whitespace from both ends. -/
def strip (s : String) : String :=
  ⟨((s.data.dropWhile Char.isWhitespace).reverse.dropWhile Char.isWhitespace).reverse⟩

/-- `days_difference(time_recent, time_older)`:
`int((time_recent - time_older) / SECONDS_PER_DAY)` — truncating division
toward zero. -/
def days_difference (time_recent time_older : Int) : Int :=
  Int.tdiv (time_recent - time_older) SECONDS_PER_DAY

/-- The accumulator update in the `process_records` loop: `+= 1` on
`'Added'`, `-= 1` on `'Removed'`, unchanged otherwise. -/
def updateCount (num_students : Int) (action : String) : Int :=
  if action = "Added" then num_students + 1
  else if action = "Removed" then num_students - 1
  else num_students

/-- `histogram[day] = num` — Python dict assignment on an
insertion-ordered association list: overwrite an existing key in place,
otherwise append. -/
def histInsert : List (Int × Int) → Int → Int → List (Int × Int)
  | [], k, v => [(k, v)]
  | (k', v') :: t, k, v =>
    if k' = k then (k, v) :: t else (k', v') :: histInsert t k v

/-- The main loop of `process_records`: walk the records, update the
running count, and set `histogram[day]` to the post-update count. -/
def processLoop (epoch : Int) : Int → List (Int × Int) → List Record → Int × List (Int × Int)
  | num_students, histogram, [] => (num_students, histogram)
  | num_students, histogram, r :: rs =>
    let day := days_difference r.time epoch
    let ns := updateCount num_students r.action
    processLoop epoch ns (histInsert histogram day ns) rs

/-- The histogram built by `process_records` from a record sequence
(accumulator starts at 0, histogram starts empty). -/
def process_histogram (epoch : Int) (records : List Record) : List (Int × Int) :=
  (processLoop epoch 0 [] records).2

/-- Comparison by day-offset key, used to model Python's
`sorted(histogram.items())` (keys of a dict are unique, so sorting pairs
lexicographically coincides with sorting by key). -/
def keyLE (p q : Int × Int) : Prop := p.1 ≤ q.1

instance : DecidableRel keyLE := fun p q => inferInstanceAs (Decidable (p.1 ≤ q.1))

instance : IsTotal (Int × Int) keyLE := ⟨fun p q => Int.le_total p.1 q.1⟩

instance : IsTrans (Int × Int) keyLE := ⟨fun _ _ _ h h' => le_trans h h'⟩

/-- `sorted(histogram.items())`. -/
def histSorted (histogram : List (Int × Int)) : List (Int × Int) :=
  List.insertionSort keyLE histogram

/-- The filtering loop of `process_records`: keep the sorted histogram items
with `-low <= day <= high` and split them into the `days` and
`num_students` lists. -/
def build_series (histogram : List (Int × Int)) (low high : Int) :
    List Int × List Int :=
  ((histSorted histogram).filter (fun p => decide (-low ≤ p.1 ∧ p.1 ≤ high))).unzip

/-- `process_records`: normalize the epoch string to the last minute of the
epoch day, tally the records into a histogram, and build the plotted
series.  `none` models the uncaught `ValueError` on a malformed epoch. -/
def process_records (epochStr : String) (low high : Int) (records : List Record) :
    Option (List Int × List Int) :=
  match parse_date_time (strip epochStr ++ " " ++ LAST_MINUTE_OF_DAY) with
  | none => none
  | some epoch => some (build_series (process_histogram epoch records) low high)

/-- The optional label of `plot_data`: under
`if args.label and num_students:` it shows
`max(num_students)` and `num_students[-1]`; otherwise there is no label. -/
def plot_annot (label : Bool) (num_students : List Int) : Option (Int × Int) :=
  if label && !num_students.isEmpty then
    match num_students.max?, num_students.getLast? with
    | some m, some c => some (m, c)
    | _, _ => none
  else none

/-- `read_records`: keep rows with exactly `NUM_FIELDS` fields (others are
dropped silently); of those, keep rows whose last field is exactly
`'Added'` or `'Removed'` and parse the first field as the event instant;
rows with any other action are reported (modelled by the second component,
the list of rows printed by
`"Unrecogonised action, skipping: {}".format(row)`) and dropped.  `none`
models an uncaught date-parse `ValueError`. -/
def read_records : List (List String) → Option (List Record × List (List String))
  | [] => some ([], [])
  | row :: rows =>
    if row.length = NUM_FIELDS then
      let time_of_event_str := row.headD ""
      let action := row.getLastD ""
      if action = "Added" ∨ action = "Removed" then
        match parse_date_time time_of_event_str, read_records rows with
        | some t, some (recs, warns) => some ({ time := t, action := action } :: recs, warns)
        | _, _ => none
      else
        match read_records rows with
        | none => none
        | some (recs, warns) => some (recs, row :: warns)
    else
      read_records rows

/-- Outcome of `main`: either the record list was empty (the
`if records:` guard fails and nothing is tallied or plotted), or a plot
with its series and optional annotation label was produced. -/
inductive MainResult where
  | noData : MainResult
  | plotted : List Int → List Int → Option (Int × Int) → MainResult
deriving Repr, DecidableEq

/-- `main`: read the records; if none, do nothing; otherwise reverse them
into chronological order and process.  `none` models an uncaught parse
error. -/
def mainModel (epochStr : String) (low high : Int) (label : Bool)
    (rows : List (List String)) : Option MainResult :=
  match read_records rows with
  | none => none
  | some (records, _warns) =>
    if records.isEmpty then some MainResult.noData
    else
      match process_records epochStr low high records.reverse with
      | none => none
      | some (days, counts) =>
        some (MainResult.plotted days counts (plot_annot label counts))

/-- Net effect of one record on the running count. -/
def actionDelta (a : String) : Int :=
  if a = "Added" then 1 else if a = "Removed" then -1 else 0

/-- Net count of a record sequence: number of `Added` minus number of
`Removed`. -/
def netCount (records : List Record) : Int :=
  (records.map (fun r => actionDelta r.action)).sum

/-! ## Helper lemmas -/

theorem tdiv_zero_of_neg_small {n d : Int} (h1 : -d < n) (h2 : n ≤ 0) :
    Int.tdiv n d = 0 := by
  have e1 : Int.tdiv (-n) d = 0 := Int.tdiv_eq_zero_of_lt (by omega) (by omega)
  have e2 : Int.tdiv (-n) d = -Int.tdiv n d := Int.neg_tdiv n d
  omega

/-! ## Claim C2 -/

/-- C2 counterexample: with the event exactly one full day before the epoch
instant, the day-offset is already −1, although the negative gap is exactly
one full day and so does not exceed a full day. -/
theorem claim_C2_counterexample :
    days_difference (dtInstant 2014 7 27 23 59) (dtInstant 2014 7 28 23 59) ≤ -1
  ∧ ¬ (SECONDS_PER_DAY < dtInstant 2014 7 28 23 59 - dtInstant 2014 7 27 23 59) := by
  decide

/-- C2 (amended): the day-offset is the difference in seconds divided by
86400 truncated toward zero; an event earlier than the epoch by less than
one full day has day-offset 0; and the day-offset is ≤ −1 only when the
negative gap is at least one full day. -/
theorem claim_C2_amended : ∀ t e : Int,
    days_difference t e = Int.tdiv (t - e) SECONDS_PER_DAY
  ∧ (0 < e - t → e - t < SECONDS_PER_DAY → days_difference t e = 0)
  ∧ (days_difference t e ≤ -1 → SECONDS_PER_DAY ≤ e - t) := by
  intro t e
  refine ⟨rfl, ?_, ?_⟩
  · intro h1 h2
    simp only [days_difference, SECONDS_PER_DAY] at h2 ⊢
    exact tdiv_zero_of_neg_small (by omega) (by omega)
  · intro h
    by_contra hc
    push_neg at hc
    simp only [days_difference, SECONDS_PER_DAY] at h hc
    rcases le_or_lt 0 (t - e) with h0 | h0
    · have := Int.tdiv_nonneg h0 (by omega : (0:Int) ≤ 60 * 60 * 24)
      omega
    · have : Int.tdiv (t - e) (60 * 60 * 24) = 0 :=
        tdiv_zero_of_neg_small (by omega) (by omega)
      omega

/-- Witness for C2 (amended) at concrete instants. -/
theorem claim_C2_amended_witness :
    days_difference (dtInstant 2014 7 28 10 0) (dtInstant 2014 7 28 23 59) = 0
  ∧ SECONDS_PER_DAY ≤ dtInstant 2014 7 28 23 59 - dtInstant 2014 7 27 10 0 := by
  constructor
  · exact (claim_C2_amended (dtInstant 2014 7 28 10 0) (dtInstant 2014 7 28 23 59)).2.1
      (by decide) (by decide)
  · exact (claim_C2_amended (dtInstant 2014 7 27 10 0) (dtInstant 2014 7 28 23 59)).2.2
      (by decide)

/-! ## Claim C3 -/

/-- C3 counterexample: on the stated input the pipeline does not produce
the series `days = [-1, 1]`, `counts = [1, 0]` (the `Removed` event at
29-Jul-2014 09:00 is only 9h01m after the epoch instant 28-Jul-2014 23:59,
so its day-offset truncates to 0, not 1). -/
theorem claim_C3_counterexample :
    process_records "28-Jul-2014" 28 100
      ([⟨dtInstant 2014 7 29 9 0, "Removed"⟩, ⟨dtInstant 2014 7 27 10 0, "Added"⟩].reverse)
      ≠ some ([-1, 1], [1, 0]) := by
  decide

/-- C3 (amended): on the stated input the pipeline produces
`days = [-1, 0]`, `counts = [1, 0]`, with maximum enrolment 1 and current
enrolment 0. -/
theorem claim_C3_amended :
    process_records "28-Jul-2014" 28 100
      ([⟨dtInstant 2014 7 29 9 0, "Removed"⟩, ⟨dtInstant 2014 7 27 10 0, "Added"⟩].reverse)
      = some ([-1, 0], [1, 0])
  ∧ plot_annot true [1, 0] = some (1, 0) := by
  decide

/-! ## Claim C4 -/

/-- C4: the pipeline's epoch instant is obtained by appending the fixed
time 23:59 to the (stripped) date-only epoch string and parsing it with the
same rule as event date-times; concretely `28-Jul-2014` normalizes to the
instant of 28-Jul-2014 23:59; and any event on the epoch calendar day
before 23:59 gets day-offset 0, not 1. -/
theorem claim_C4 :
    (∀ (s : String) (low high : Int) (records : List Record) (epoch : Int),
       parse_date_time (strip s ++ " " ++ LAST_MINUTE_OF_DAY) = some epoch →
       process_records s low high records
         = some (build_series (process_histogram epoch records) low high))
  ∧ parse_date_time (strip "28-Jul-2014" ++ " " ++ LAST_MINUTE_OF_DAY)
      = some (dtInstant 2014 7 28 23 59)
  ∧ (∀ (y : Int) (mo d h mi : Nat), h ≤ 23 → mi ≤ 59 →
      (h < 23 ∨ (h = 23 ∧ mi < 59)) →
      days_difference (dtInstant y mo d h mi) (dtInstant y mo d 23 59) = 0) := by
  refine ⟨?_, by decide, ?_⟩
  · intro s low high records epoch hparse
    simp only [process_records, hparse]
  · intro y mo d h mi hh hm _hbefore
    have heq : dtInstant y mo d h mi - dtInstant y mo d 23 59
        = 3600 * (h : Int) + 60 * (mi : Int) - 86340 := by
      simp only [dtInstant]
      push_cast
      ring
    simp only [days_difference, SECONDS_PER_DAY]
    rw [heq]
    exact tdiv_zero_of_neg_small (by omega) (by omega)

/-- Witness for C4 at a concrete epoch day and event time. -/
theorem claim_C4_witness :
    process_records "28-Jul-2014" 28 100 []
      = some (build_series (process_histogram (dtInstant 2014 7 28 23 59) []) 28 100)
  ∧ days_difference (dtInstant 2014 7 28 10 0) (dtInstant 2014 7 28 23 59) = 0 := by
  constructor
  · exact claim_C4.1 "28-Jul-2014" 28 100 [] (dtInstant 2014 7 28 23 59) (by decide)
  · exact claim_C4.2.2 2014 7 28 10 0 (by decide) (by decide) (Or.inl (by decide))

/-! ## Tally-engine lemmas -/

theorem updateCount_eq (n : Int) (a : String) :
    updateCount n a = n + actionDelta a := by
  simp only [updateCount, actionDelta]
  split_ifs <;> ring

theorem netCount_nil : netCount [] = 0 := rfl

theorem netCount_cons (r : Record) (rs : List Record) :
    netCount (r :: rs) = actionDelta r.action + netCount rs := by
  simp [netCount]

theorem netCount_append (rs ts : List Record) :
    netCount (rs ++ ts) = netCount rs + netCount ts := by
  simp [netCount]

theorem processLoop_fst (e : Int) (rs : List Record) : ∀ (a : Int) (h : List (Int × Int)),
    (processLoop e a h rs).1 = a + netCount rs := by
  induction rs with
  | nil => intro a h; simp [processLoop, netCount]
  | cons r t ih =>
    intro a h
    simp only [processLoop]
    rw [ih, updateCount_eq, netCount_cons]
    ring

theorem processLoop_append (e : Int) (xs ys : List Record) : ∀ (a : Int) (h : List (Int × Int)),
    processLoop e a h (xs ++ ys)
      = processLoop e (processLoop e a h xs).1 (processLoop e a h xs).2 ys := by
  induction xs with
  | nil => intro a h; simp [processLoop]
  | cons r t ih =>
    intro a h
    simp only [List.cons_append, processLoop]
    exact ih _ _

theorem lookup_cons_ne {t : List (Int × Int)} {a b k : Int} (h : k ≠ a) :
    ((a, b) :: t).lookup k = t.lookup k := by
  rw [List.lookup_cons, beq_eq_false_iff_ne.mpr h]

theorem histInsert_lookup_self (h : List (Int × Int)) (k v : Int) :
    (histInsert h k v).lookup k = some v := by
  induction h with
  | nil => simp [histInsert]
  | cons p t ih =>
    obtain ⟨a, b⟩ := p
    by_cases hk : a = k
    · simp [histInsert, hk]
    · rw [histInsert, if_neg hk, lookup_cons_ne (Ne.symm hk), ih]

theorem histInsert_lookup_ne (h : List (Int × Int)) (k v d : Int) (hne : d ≠ k) :
    (histInsert h k v).lookup d = h.lookup d := by
  induction h with
  | nil => simp [histInsert, lookup_cons_ne hne]
  | cons p t ih =>
    obtain ⟨a, b⟩ := p
    by_cases hk : a = k
    · subst hk
      rw [histInsert, if_pos rfl, lookup_cons_ne hne, lookup_cons_ne hne]
    · by_cases hd : d = a
      · subst hd
        rw [histInsert, if_neg hk, List.lookup_cons_self, List.lookup_cons_self]
      · rw [histInsert, if_neg hk, lookup_cons_ne hd, lookup_cons_ne hd, ih]

theorem processLoop_lookup_ne (e d : Int) (rs : List Record)
    (hd : ∀ r ∈ rs, days_difference r.time e ≠ d) : ∀ (a : Int) (h : List (Int × Int)),
    ((processLoop e a h rs).2).lookup d = h.lookup d := by
  induction rs with
  | nil => intro a h; simp [processLoop]
  | cons r t ih =>
    intro a h
    simp only [processLoop]
    rw [ih (fun r' hr' => hd r' (List.mem_cons_of_mem r hr')),
      histInsert_lookup_ne _ _ _ _ (Ne.symm (hd r (List.mem_cons_self r t)))]

/-! ## Claim C1 -/

/-- C1: the tally walks the chronological records with an accumulator
starting at 0 (+1 per `Added`, −1 per `Removed`) and stores the post-update
value at the record's day-offset, so the histogram value of a day is the
net count after the last event of that day: if `r` is the last record of
its day, the histogram at `r`'s day equals the net count of the sequence up
to and including `r`.  In particular the two `Added` events at
27-Jul-2014 08:00 and 20:00 (epoch 28-Jul-2014) produce the single
histogram entry `(-1, 2)`. -/
theorem claim_C1 :
    (∀ (e : Int) (rs₁ rs₂ : List Record) (r : Record),
       (∀ r' ∈ rs₂, days_difference r'.time e ≠ days_difference r.time e) →
       (process_histogram e (rs₁ ++ r :: rs₂)).lookup (days_difference r.time e)
         = some (netCount (rs₁ ++ [r])))
  ∧ process_histogram (dtInstant 2014 7 28 23 59)
      [⟨dtInstant 2014 7 27 8 0, "Added"⟩, ⟨dtInstant 2014 7 27 20 0, "Added"⟩]
      = [(-1, 2)] := by
  constructor
  · intro e rs₁ rs₂ r hlast
    have hsplit : rs₁ ++ r :: rs₂ = (rs₁ ++ [r]) ++ rs₂ := by simp
    rw [process_histogram, hsplit, processLoop_append,
      processLoop_lookup_ne e _ rs₂ hlast, processLoop_append]
    simp only [processLoop]
    rw [histInsert_lookup_self, processLoop_fst, updateCount_eq, netCount_append]
    simp [netCount]
  · decide

/-- Witness for C1: the `Added` record at 27-Jul-2014 10:00 is the last
event of its day (the later `Removed` record falls on another day), and the
histogram at its day-offset −1 holds net count 1. -/
theorem claim_C1_witness :
    (∀ r' ∈ [Record.mk (dtInstant 2014 7 29 9 0) "Removed"],
       days_difference r'.time (dtInstant 2014 7 28 23 59)
         ≠ days_difference (dtInstant 2014 7 27 10 0) (dtInstant 2014 7 28 23 59))
  ∧ (process_histogram (dtInstant 2014 7 28 23 59)
       ([] ++ ⟨dtInstant 2014 7 27 10 0, "Added"⟩ :: [⟨dtInstant 2014 7 29 9 0, "Removed"⟩])).lookup
       (days_difference (dtInstant 2014 7 27 10 0) (dtInstant 2014 7 28 23 59))
      = some (netCount ([] ++ [⟨dtInstant 2014 7 27 10 0, "Added"⟩])) := by
  refine ⟨by decide, ?_⟩
  exact claim_C1.1 (dtInstant 2014 7 28 23 59) [] [⟨dtInstant 2014 7 29 9 0, "Removed"⟩]
    ⟨dtInstant 2014 7 27 10 0, "Added"⟩ (by decide)

/-! ## Claim C10 -/

/-- C10: the final accumulator value equals the number of `Added` records
minus the number of `Removed` records, and it is invariant under any
permutation of the record sequence. -/
theorem claim_C10 :
    (∀ (epoch : Int) (records : List Record),
       (processLoop epoch 0 [] records).1
         = (records.countP (fun r => decide (r.action = "Added")) : Int)
           - (records.countP (fun r => decide (r.action = "Removed")) : Int))
  ∧ (∀ (epoch : Int) (records records' : List Record), records.Perm records' →
       (processLoop epoch 0 [] records).1 = (processLoop epoch 0 [] records').1) := by
  have hnet : ∀ rs : List Record,
      netCount rs = (rs.countP (fun r => decide (r.action = "Added")) : Int)
        - (rs.countP (fun r => decide (r.action = "Removed")) : Int) := by
    intro rs
    induction rs with
    | nil => simp [netCount]
    | cons r t ih =>
      rw [netCount_cons, ih]
      by_cases h1 : r.action = "Added" <;> by_cases h2 : r.action = "Removed" <;>
        simp [List.countP_cons, actionDelta, h1, h2] <;> omega
  constructor
  · intro e rs
    rw [processLoop_fst, hnet rs]
    ring
  · intro e rs rs' hp
    rw [processLoop_fst, processLoop_fst]
    have hsum : netCount rs = netCount rs' :=
      List.Perm.sum_eq (hp.map (fun r => actionDelta r.action))
    omega

/-- Witness for C10: permutation invariance at a concrete pair of record
sequences. -/
theorem claim_C10_witness :
    (processLoop 0 0 [] [⟨100, "Added"⟩, ⟨200, "Removed"⟩, ⟨300, "Added"⟩]).1
      = (processLoop 0 0 [] [⟨300, "Added"⟩, ⟨100, "Added"⟩, ⟨200, "Removed"⟩]).1 :=
  claim_C10.2 0 _ _ (by decide)

/-! ## Series-builder lemmas -/

theorem histSorted_perm (h : List (Int × Int)) : (histSorted h).Perm h :=
  List.perm_insertionSort keyLE h

theorem histSorted_pairwise (h : List (Int × Int)) : (histSorted h).Pairwise keyLE :=
  List.sorted_insertionSort keyLE h

theorem build_series_eq (hist : List (Int × Int)) (lo hi : Int) :
    build_series hist lo hi
      = (((histSorted hist).filter (fun p => decide (-lo ≤ p.1 ∧ p.1 ≤ hi))).map Prod.fst,
         ((histSorted hist).filter (fun p => decide (-lo ≤ p.1 ∧ p.1 ≤ hi))).map Prod.snd) := by
  rw [build_series, List.unzip_eq_map]

theorem build_series_zip (hist : List (Int × Int)) (lo hi : Int) :
    (build_series hist lo hi).1.zip (build_series hist lo hi).2
      = (histSorted hist).filter (fun p => decide (-lo ≤ p.1 ∧ p.1 ≤ hi)) := by
  rw [build_series_eq]
  simp [List.zip_map']

theorem mem_build_series_zip (hist : List (Int × Int)) (lo hi : Int) (p : Int × Int) :
    p ∈ (build_series hist lo hi).1.zip (build_series hist lo hi).2
      ↔ p ∈ hist ∧ -lo ≤ p.1 ∧ p.1 ≤ hi := by
  rw [build_series_zip, List.mem_filter, (histSorted_perm hist).mem_iff]
  simp

theorem build_series_empty_of (hist : List (Int × Int)) (lo hi : Int)
    (h : ∀ p ∈ hist, ¬(-lo ≤ p.1 ∧ p.1 ≤ hi)) :
    build_series hist lo hi = ([], []) := by
  rw [build_series_eq]
  have hf : (histSorted hist).filter (fun p => decide (-lo ≤ p.1 ∧ p.1 ≤ hi)) = [] := by
    rw [List.filter_eq_nil_iff]
    intro p hp
    simpa using h p ((histSorted_perm hist).mem_iff.mp hp)
  rw [hf]
  rfl

/-! ## Claim C7 -/

/-- C7: the series builder retains exactly the histogram entries whose
day-offset `d` satisfies `-low ≤ d ≤ high`, inclusive at both ends; with
`low = 0` and `high = 0` every retained day-offset is 0, and the series is
empty when no entry for day-offset 0 is present. -/
theorem claim_C7 : ∀ (hist : List (Int × Int)) (low high : Int), 0 ≤ low → 0 ≤ high →
    (∀ p : Int × Int,
       p ∈ (build_series hist low high).1.zip (build_series hist low high).2
         ↔ p ∈ hist ∧ -low ≤ p.1 ∧ p.1 ≤ high)
  ∧ (∀ d ∈ (build_series hist 0 0).1, d = 0)
  ∧ ((∀ v : Int, (0, v) ∉ hist) → build_series hist 0 0 = ([], [])) := by
  intro hist low high _hlow _hhigh
  refine ⟨mem_build_series_zip hist low high, ?_, ?_⟩
  · intro d hd
    rw [build_series_eq] at hd
    obtain ⟨p, hp, rfl⟩ := List.mem_map.mp hd
    have := List.of_mem_filter hp
    simp only [decide_eq_true_eq] at this
    omega
  · intro h0
    refine build_series_empty_of hist 0 0 ?_
    intro p hp hbound
    have hp1 : p.1 = 0 := by omega
    exact h0 p.2 (by rw [← hp1]; simpa using hp)

/-- Witness for C7 at a concrete histogram and bounds. -/
theorem claim_C7_witness :
    ((-1, 5) ∈ (build_series [(3, 7), (-1, 5)] 1 2).1.zip (build_series [(3, 7), (-1, 5)] 1 2).2
       ↔ (-1, 5) ∈ ([(3, 7), (-1, 5)] : List (Int × Int)) ∧ (-1 : Int) ≤ -1 ∧ (-1 : Int) ≤ 2)
  ∧ build_series [(3, 7), (-1, 5)] 0 0 = ([], []) := by
  have h := claim_C7 [(3, 7), (-1, 5)] 1 2 (by decide) (by decide)
  exact ⟨h.1 (-1, 5), h.2.2 (by intro v; simp)⟩

/-! ## Histogram-key lemmas -/

theorem histInsert_keys_mem (h : List (Int × Int)) (k v x : Int) :
    x ∈ (histInsert h k v).map Prod.fst ↔ x ∈ h.map Prod.fst ∨ x = k := by
  induction h with
  | nil => simp [histInsert]
  | cons p t ih =>
    obtain ⟨a, b⟩ := p
    by_cases hk : a = k
    · subst hk
      simp [histInsert]
      tauto
    · simp [histInsert, hk, ih]
      tauto

theorem histInsert_keys_nodup (h : List (Int × Int)) (k v : Int)
    (hn : (h.map Prod.fst).Nodup) : ((histInsert h k v).map Prod.fst).Nodup := by
  induction h with
  | nil => simp [histInsert]
  | cons p t ih =>
    obtain ⟨a, b⟩ := p
    simp only [List.map_cons, List.nodup_cons] at hn
    by_cases hk : a = k
    · subst hk
      simpa [histInsert] using hn
    · simp only [histInsert, if_neg hk, List.map_cons, List.nodup_cons]
      refine ⟨?_, ih hn.2⟩
      intro hmem
      rcases (histInsert_keys_mem t k v a).mp hmem with h1 | h1
      · exact hn.1 h1
      · exact hk h1

theorem processLoop_keys_nodup (e : Int) (rs : List Record) :
    ∀ (a : Int) (h : List (Int × Int)),
    (h.map Prod.fst).Nodup → (((processLoop e a h rs).2).map Prod.fst).Nodup := by
  induction rs with
  | nil => intro a h hn; simpa [processLoop] using hn
  | cons r t ih =>
    intro a h hn
    simp only [processLoop]
    exact ih _ _ (histInsert_keys_nodup _ _ _ hn)

theorem process_histogram_keys_nodup (e : Int) (rs : List Record) :
    ((process_histogram e rs).map Prod.fst).Nodup :=
  processLoop_keys_nodup e rs 0 [] (by simp)

theorem lookup_eq_of_mem_of_nodup (h : List (Int × Int)) (k v : Int)
    (hm : (k, v) ∈ h) (hn : (h.map Prod.fst).Nodup) : h.lookup k = some v := by
  induction h with
  | nil => simp at hm
  | cons p t ih =>
    obtain ⟨a, b⟩ := p
    simp only [List.map_cons, List.nodup_cons] at hn
    rcases List.mem_cons.mp hm with heq | hmem
    · cases heq
      exact List.lookup_cons_self
    · have hka : k ≠ a := by
        rintro rfl
        exact hn.1 (List.mem_map.mpr ⟨(k, v), hmem, rfl⟩)
      rw [lookup_cons_ne hka]
      exact ih hmem hn.2

theorem build_series_days_pairwise (hist : List (Int × Int)) (lo hi : Int)
    (hn : (hist.map Prod.fst).Nodup) :
    (build_series hist lo hi).1.Pairwise (fun a b => a < b) := by
  rw [build_series_eq]
  rw [List.pairwise_map]
  have hsorted : (histSorted hist).Pairwise keyLE := histSorted_pairwise hist
  have hnodup : ((histSorted hist).map Prod.fst).Nodup :=
    (((histSorted_perm hist).map Prod.fst).nodup_iff).mpr hn
  have hne : (histSorted hist).Pairwise (fun p q => p.1 ≠ q.1) :=
    List.pairwise_map.mp hnodup
  have hlt : (histSorted hist).Pairwise (fun p q => p.1 < q.1) :=
    (hsorted.and hne).imp (fun h => lt_of_le_of_ne h.1 h.2)
  exact hlt.filter _

/-! ## Claim C8 -/

/-- C8: for every input record sequence and bounds, the built series has
equally long `days` and `counts`, `days` is strictly ascending (no
duplicates), and the entries are index-aligned: every `(day, count)` pair
of the series is the histogram value at that day. -/
theorem claim_C8 : ∀ (epoch low high : Int) (records : List Record),
    (build_series (process_histogram epoch records) low high).1.length
      = (build_series (process_histogram epoch records) low high).2.length
  ∧ (build_series (process_histogram epoch records) low high).1.Pairwise (fun a b => a < b)
  ∧ (∀ p : Int × Int,
       p ∈ (build_series (process_histogram epoch records) low high).1.zip
             (build_series (process_histogram epoch records) low high).2 →
       (process_histogram epoch records).lookup p.1 = some p.2) := by
  intro e lo hi rs
  refine ⟨?_, ?_, ?_⟩
  · rw [build_series_eq]
    simp
  · exact build_series_days_pairwise _ _ _ (process_histogram_keys_nodup e rs)
  · intro p hp
    have hmem : p ∈ process_histogram e rs :=
      ((mem_build_series_zip _ _ _ p).mp hp).1
    exact lookup_eq_of_mem_of_nodup _ p.1 p.2 (by simpa using hmem)
      (process_histogram_keys_nodup e rs)

/-- Witness for C8: index alignment at a concrete series entry. -/
theorem claim_C8_witness :
    (process_histogram 0 [⟨100, "Added"⟩]).lookup 0 = some 1 :=
  (claim_C8 0 1 1 [⟨100, "Added"⟩]).2.2 (0, 1) (by decide)

/-! ## Claim C9 -/

/-- C9: with no valid records the pipeline performs no tally and produces
no series (a defined empty-result case); a filter window that excludes
every histogram entry yields the empty series; and the maximum/current
label is guarded: it is `none` on an empty counts list, and whenever it is
computed the counts list is nonempty. -/
theorem claim_C9 :
    (∀ (rows warns : List (List String)) (epochStr : String) (low high : Int) (label : Bool),
       read_records rows = some ([], warns) →
       mainModel epochStr low high label rows = some MainResult.noData)
  ∧ (∀ (hist : List (Int × Int)) (low high : Int),
       (∀ p ∈ hist, ¬(-low ≤ p.1 ∧ p.1 ≤ high)) → build_series hist low high = ([], []))
  ∧ (∀ label : Bool, plot_annot label [] = none)
  ∧ (∀ (label : Bool) (counts : List Int) (m c : Int),
       plot_annot label counts = some (m, c) → counts ≠ []) := by
  refine ⟨?_, build_series_empty_of, ?_, ?_⟩
  · intro rows warns eS lo hi lb h
    simp [mainModel, h]
  · intro lb
    simp [plot_annot]
  · intro lb counts m c h
    cases counts with
    | nil => simp [plot_annot] at h
    | cons a t => simp

/-- Witness for C9 at concrete inputs: empty ingestion gives the no-data
result, an excluding window gives the empty series, and a computed label
certifies nonempty counts. -/
theorem claim_C9_witness :
    mainModel "28-Jul-2014" 50 100 true [] = some MainResult.noData
  ∧ build_series [((5 : Int), (1 : Int))] 0 0 = ([], [])
  ∧ ([1, 0] : List Int) ≠ [] := by
  refine ⟨claim_C9.1 [] [] "28-Jul-2014" 50 100 true rfl,
    claim_C9.2.1 [(5, 1)] 0 0 ?_,
    claim_C9.2.2.2 true [1, 0] 1 0 (by decide)⟩
  intro p hp
  simp at hp
  subst hp
  decide

/-! ## Ingestion step lemmas -/

theorem read_records_nil : read_records [] = some ([], []) := rfl

theorem read_records_cons_badlen (row : List String) (rows : List (List String))
    (h : row.length ≠ NUM_FIELDS) :
    read_records (row :: rows) = read_records rows := by
  simp [read_records, h]

theorem read_records_cons_unrec (row : List String) (rows : List (List String))
    (hlen : row.length = NUM_FIELDS)
    (h : ¬(row.getLastD "" = "Added" ∨ row.getLastD "" = "Removed")) :
    read_records (row :: rows)
      = match read_records rows with
        | none => none
        | some (recs, warns) => some (recs, row :: warns) := by
  simp only [read_records, if_pos hlen, if_neg h]

theorem read_records_cons_ok (row : List String) (rows : List (List String))
    (hlen : row.length = NUM_FIELDS)
    (hact : row.getLastD "" = "Added" ∨ row.getLastD "" = "Removed") :
    read_records (row :: rows)
      = match parse_date_time (row.headD ""), read_records rows with
        | some t, some (recs, warns) =>
          some ({ time := t, action := row.getLastD "" } :: recs, warns)
        | _, _ => none := by
  simp only [read_records, if_pos hlen, if_pos hact]

/-! ## Claim C5 -/

/-- C5: every row with the expected field count whose action label (last
field) is not exactly `Added` or `Removed` is diagnosed (appears among the
warned rows) and contributes no record; and no record with any other action
tag is ever returned to the tally stage. -/
theorem claim_C5 : ∀ (rows : List (List String)) (recs : List Record)
    (warns : List (List String)),
    read_records rows = some (recs, warns) →
    (∀ row ∈ rows, row.length = NUM_FIELDS →
       row.getLastD "" ≠ "Added" → row.getLastD "" ≠ "Removed" → row ∈ warns)
  ∧ (∀ r ∈ recs, r.action = "Added" ∨ r.action = "Removed") := by
  intro rows
  induction rows with
  | nil =>
    intro recs warns h
    rw [read_records_nil] at h
    simp only [Option.some.injEq, Prod.mk.injEq] at h
    obtain ⟨h1, h2⟩ := h
    subst h1
    subst h2
    constructor
    · intro row hrow
      simp at hrow
    · intro r hr
      simp at hr
  | cons row rest ih =>
    intro recs warns h
    by_cases hlen : row.length = NUM_FIELDS
    · by_cases hact : row.getLastD "" = "Added" ∨ row.getLastD "" = "Removed"
      · rw [read_records_cons_ok row rest hlen hact] at h
        cases hp : parse_date_time (row.headD "") with
        | none =>
          rw [hp] at h
          simp at h
        | some t =>
          rw [hp] at h
          cases hr : read_records rest with
          | none =>
            rw [hr] at h
            simp at h
          | some pr =>
            obtain ⟨recs', warns'⟩ := pr
            rw [hr] at h
            simp only [Option.some.injEq, Prod.mk.injEq] at h
            obtain ⟨h1, h2⟩ := h
            subst h1
            subst h2
            obtain ⟨ih1, ih2⟩ := ih recs' warns' hr
            constructor
            · intro row' hrow' hlen' hA hR
              rcases List.mem_cons.mp hrow' with heq | hmem
              · subst heq
                rcases hact with hA' | hR'
                · exact absurd hA' hA
                · exact absurd hR' hR
              · exact ih1 row' hmem hlen' hA hR
            · intro r hr'
              rcases List.mem_cons.mp hr' with heq | hmem
              · subst heq
                simpa using hact
              · exact ih2 r hmem
      · rw [read_records_cons_unrec row rest hlen hact] at h
        cases hr : read_records rest with
        | none =>
          rw [hr] at h
          simp at h
        | some pr =>
          obtain ⟨recs', warns'⟩ := pr
          rw [hr] at h
          simp only [Option.some.injEq, Prod.mk.injEq] at h
          obtain ⟨h1, h2⟩ := h
          subst h1
          subst h2
          obtain ⟨ih1, ih2⟩ := ih recs' warns' hr
          constructor
          · intro row' hrow' hlen' hA hR
            rcases List.mem_cons.mp hrow' with heq | hmem
            · subst heq
              exact List.mem_cons_self _ _
            · exact List.mem_cons_of_mem _ (ih1 row' hmem hlen' hA hR)
          · exact ih2
    · rw [read_records_cons_badlen row rest hlen] at h
      obtain ⟨ih1, ih2⟩ := ih recs warns h
      constructor
      · intro row' hrow' hlen' hA hR
        rcases List.mem_cons.mp hrow' with heq | hmem
        · subst heq
          exact absurd hlen' hlen
        · exact ih1 row' hmem hlen' hA hR
      · exact ih2

/-- Witness for C5: a six-field row with action `Transferred` ends up among
the warned rows. -/
theorem claim_C5_witness :
    (["27-Jul-2014 10:00", "a", "b", "c", "d", "Transferred"] : List String)
      ∈ ([["27-Jul-2014 10:00", "a", "b", "c", "d", "Transferred"]] : List (List String)) := by
  have h := claim_C5 [["27-Jul-2014 10:00", "a", "b", "c", "d", "Transferred"]] []
    [["27-Jul-2014 10:00", "a", "b", "c", "d", "Transferred"]] (by decide)
  exact h.1 _ (List.mem_singleton.mpr rfl) (by decide) (by decide) (by decide)

/-! ## Claim C6 -/

/-- C6: rows whose field count differs from the expected count are dropped
silently (same records and same diagnostics as without the row); an
accepted row contributes, in order, a record whose instant is parsed from
the row's first field and whose action is the row's last field. -/
theorem claim_C6 :
    (∀ (row : List String) (rows : List (List String)), row.length ≠ NUM_FIELDS →
       read_records (row :: rows) = read_records rows)
  ∧ (∀ (row : List String) (rows : List (List String)) (t : Int) (recs : List Record)
       (warns : List (List String)) (dstr act : String),
       row.length = NUM_FIELDS → row.head? = some dstr → row.getLast? = some act →
       (act = "Added" ∨ act = "Removed") → parse_date_time dstr = some t →
       read_records rows = some (recs, warns) →
       read_records (row :: rows) = some ({ time := t, action := act } :: recs, warns)) := by
  refine ⟨read_records_cons_badlen, ?_⟩
  intro row rows t recs warns dstr act hlen hhead hlast hact hparse hrest
  have hd : row.headD "" = dstr := by
    rw [List.headD_eq_head?_getD, hhead]
    rfl
  have hl : row.getLastD "" = act := by
    rw [List.getLastD_eq_getLast?, hlast]
    rfl
  rw [read_records_cons_ok row rows hlen (by rw [hl]; exact hact), hd, hl, hparse, hrest]

/-- Witness for C6: a one-field row is dropped silently; an accepted
six-field row yields the record parsed from its first and last fields. -/
theorem claim_C6_witness :
    read_records [["x"]] = read_records []
  ∧ read_records [["27-Jul-2014 10:00", "a", "b", "c", "d", "Added"]]
      = some ([{ time := dtInstant 2014 7 27 10 0, action := "Added" }], []) := by
  constructor
  · exact claim_C6.1 ["x"] [] (by decide)
  · exact claim_C6.2 ["27-Jul-2014 10:00", "a", "b", "c", "d", "Added"] []
      (dtInstant 2014 7 27 10 0) [] [] "27-Jul-2014 10:00" "Added"
      (by decide) rfl (by decide) (Or.inl rfl) (by decide) rfl
